import Mathlib

/-!
# aws-tee: batching, bootstrap and upload loop of `main.go`

A shallow embedding of `src/main.go`.

* Go strings are Lean strings and `len(s)` is the UTF-8 byte size.
* Go's `int` is modelled by `Int`; the accumulated byte count of a batch is the
  sum of the lengths of messages that are all held in memory, which stays far
  below `2^63`, so no wrap-around is modelled.
* Channels are modelled by the sequence of actions performed on them: the
  reader goroutine yields a list of `ChanAction`, the batcher goroutine
  consumes the list of outcomes of its `select` statement (`Recv`).
* The remote service is a record of responses; `main` yields the list of
  remote calls it issued, the lines printed and how the run ended.
-/

set_option linter.unusedVariables false

namespace AwsTee

/-! ## Data model -/

/-- The fields of `cloudwatchlogs.InputLogEvent` that the program sets. -/
structure InputLogEvent where
  Message : String
  Timestamp : Int
  deriving DecidableEq, Repr

/-- One outcome of the `select` in `batchEvents`: a value received from
`values`, the receive reporting `ok == false` (channel closed), or the
`expire` timer of the current batch firing. -/
inductive Recv where
  | value (v : InputLogEvent)
  | closed
  | expire
  deriving DecidableEq, Repr

/-- What the batcher goroutine has done to the `batches` channel: the batches
sent, in order, and whether `close(batches)` has run. -/
structure Batches where
  sent : List (List InputLogEvent)
  closed : Bool
  deriving DecidableEq, Repr

/-- The amount added to `length` for one event:
`len([]byte(*value.Message)) + 26`. -/
def accounted (value : InputLogEvent) : Int :=
  (value.Message.utf8ByteSize : Int) + 26

/-- Accounted size of a list of events. -/
def accountedSum (batch : List InputLogEvent) : Int :=
  (batch.map accounted).sum

/-! ## The batcher -/

/-- The code at label `done`: `if len(batch) > 0 { batches <- batch }`,
followed by whatever the goroutine does afterwards. -/
def done (batch : List InputLogEvent) (after : Batches) : Batches :=
  if batch.length > 0 then { after with sent := batch :: after.sent } else after

/-- The goroutine of `batchEvents`, run on the sequence of outcomes of its
`select`, with the current `batch` and `length`. A cut restarts the outer loop
with `batch = nil` and `length = 0`. When the outcomes run out the goroutine
is still waiting in `select`: nothing more is sent and `batches` is open. -/
def batchLoop (maxItems maxLength : Int) :
    List Recv → List InputLogEvent → Int → Batches
  | [], _, _ => { sent := [], closed := false }
  | Recv.closed :: _, batch, _ => done batch { sent := [], closed := true }
  | Recv.value v :: rest, batch, length =>
      if ((batch ++ [v]).length : Int) = maxItems then
        done (batch ++ [v]) (batchLoop maxItems maxLength rest [] 0)
      else if length + accounted v > maxLength then
        done (batch ++ [v]) (batchLoop maxItems maxLength rest [] 0)
      else
        batchLoop maxItems maxLength rest (batch ++ [v]) (length + accounted v)
  | Recv.expire :: rest, batch, _ =>
      done batch (batchLoop maxItems maxLength rest [] 0)

/-- The function `batchEvents`: the goroutine started with an empty batch.
The duration `maxTimeout` only decides when `expire` fires, which the list of
outcomes records. -/
def batchEvents (values : List Recv) (maxItems maxLength : Int) : Batches :=
  batchLoop maxItems maxLength values [] 0

/-- The events received in a sequence of outcomes, in order. -/
def arrivals : List Recv → List InputLogEvent
  | [] => []
  | Recv.value v :: rest => v :: arrivals rest
  | _ :: rest => arrivals rest

/-! ## The reader goroutine -/

/-- An action on the `events` channel. -/
inductive ChanAction where
  | send (v : InputLogEvent)
  | close
  deriving DecidableEq, Repr

/-- The loop `for scanner.Scan()` of the reader goroutine, on the lines the
scanner yields from the `i`-th on; `now i` is `aws.TimeUnixMilli(time.Now())`
when line `i` is read. When `Scan` reports the end of input the goroutine
returns; it performs no further action on `events`. -/
def scanLoop (now : Nat → Int) : Nat → List String → List ChanAction
  | _, [] => []
  | i, text :: rest =>
      if text.utf8ByteSize > 0 then
        ChanAction.send { Message := text, Timestamp := now i } :: scanLoop now (i + 1) rest
      else
        scanLoop now (i + 1) rest

/-- The channel actions of the reader goroutine for the lines of standard
input. -/
def ingestor (now : Nat → Int) (lines : List String) : List ChanAction :=
  scanLoop now 0 lines

/-- The events sent in a sequence of channel actions. -/
def sentEvents : List ChanAction → List InputLogEvent
  | [] => []
  | ChanAction.send v :: rest => v :: sentEvents rest
  | ChanAction.close :: rest => sentEvents rest

/-- What the batcher receives for one action of the reader. -/
def recvOf : ChanAction → Recv
  | ChanAction.send v => Recv.value v
  | ChanAction.close => Recv.closed

/-- The outcomes of the batcher's `select` when the reader performs `acts`
(numbered from `i`) and the timer fires `expiries k` times while the batcher
waits for action `k`; after the last action it fires `expiries k` more times
for `k` the number of actions. -/
def interleave (expiries : Nat → Nat) : Nat → List ChanAction → List Recv
  | i, [] => List.replicate (expiries i) Recv.expire
  | i, a :: rest =>
      List.replicate (expiries i) Recv.expire ++ recvOf a :: interleave expiries (i + 1) rest

/-! ## The remote service, bootstrap and the upload loop -/

/-- The fields of `cloudwatchlogs.LogStream` that the program reads. -/
structure LogStream where
  LogStreamName : String
  UploadSequenceToken : Option String
  deriving DecidableEq, Repr

/-- The request of `PutLogEvents`. -/
structure PutLogEventsInput where
  LogEvents : List InputLogEvent
  LogGroupName : String
  LogStreamName : String
  SequenceToken : Option String
  deriving DecidableEq, Repr

/-- The response of `PutLogEvents`. -/
structure PutLogEventsOutput where
  NextSequenceToken : Option String
  deriving DecidableEq, Repr

/-- The responses of `CreateLogGroup`. -/
inductive CreateLogGroupResponse where
  | ok
  | alreadyExists
  | failure (err : String)
  deriving DecidableEq, Repr

/-- A remote service as the program sees it: what each operation answers.
`DescribeLogStreams` answers the listed streams and a Go error (`none` is
`nil`), `CreateLogStream` a Go error, `PutLogEvents` answers its `n`-th call
(from 0) with a response or an error. -/
structure Remote where
  CreateLogGroup : CreateLogGroupResponse
  DescribeLogStreams : List LogStream × Option String
  CreateLogStream : Option String
  PutLogEvents : Nat → PutLogEventsInput → Except String PutLogEventsOutput

/-- A call issued to the remote service. -/
inductive Call where
  | CreateLogGroup (logGroupName : String)
  | DescribeLogStreams (logGroupName logStreamNameStart : String)
  | CreateLogStream (logGroupName logStreamName : String)
  | PutLogEvents (input : PutLogEventsInput)
  deriving DecidableEq, Repr

/-- How a run of `main` ends: it returns, calls `os.Exit`, panics, or waits
for ever on a channel. -/
inductive Exit where
  | returned
  | exit (code : Nat)
  | panicked (err : String)
  | blocked
  deriving DecidableEq, Repr

/-- What a run does: the remote calls issued, the lines printed on standard
output, and how it ends. -/
structure Run where
  calls : List Call
  stdout : List String
  exit : Exit
  deriving DecidableEq, Repr

/-- The `PutLogEvents` requests among a list of calls. -/
def putRequests : List Call → List PutLogEventsInput
  | [] => []
  | Call.PutLogEvents input :: rest => input :: putRequests rest
  | _ :: rest => putRequests rest

/-- The loop `for _, stream := range streams.LogStreams`: every stream whose
name equals `logStreamName` overwrites `sequenceToken` with its token. -/
def findToken (logStreamName : String) : List LogStream → Option String → Option String
  | [], sequenceToken => sequenceToken
  | stream :: rest, sequenceToken =>
      if stream.LogStreamName = logStreamName then
        findToken logStreamName rest stream.UploadSequenceToken
      else
        findToken logStreamName rest sequenceToken

/-- Lines 103 to 126 of `main`: `CreateLogGroup` (both results discarded),
`DescribeLogStreams` (the error is assigned and not read), the search for the
stream, and `CreateLogStream` when `sequenceToken == nil`. Yields the calls
issued and the cursor, or the error `main` panics with. -/
def bootstrap (remote : Remote) (logGroupName logStreamName : String) :
    List Call × Except String (Option String) :=
  let sequenceToken := findToken logStreamName remote.DescribeLogStreams.1 none
  if sequenceToken = none then
    match remote.CreateLogStream with
    | some err =>
        ([Call.CreateLogGroup logGroupName,
          Call.DescribeLogStreams logGroupName logStreamName,
          Call.CreateLogStream logGroupName logStreamName], Except.error err)
    | none =>
        ([Call.CreateLogGroup logGroupName,
          Call.DescribeLogStreams logGroupName logStreamName,
          Call.CreateLogStream logGroupName logStreamName], Except.ok sequenceToken)
  else
    ([Call.CreateLogGroup logGroupName,
      Call.DescribeLogStreams logGroupName logStreamName], Except.ok sequenceToken)

/-- The line printed for one event; `timeString ms` is the text of
`time.Unix(0, ms * 1000000).String()`. -/
def mirror (timeString : Int → String) (event : InputLogEvent) : String :=
  timeString event.Timestamp ++ " " ++ event.Message

/-- The loop `for batch := range batches`, on the batches sent by the batcher
and not yet received, `closed` telling whether `batches` gets closed after
them; `n` counts the `PutLogEvents` calls made so far. The flag `quiet` is in
scope and is not read. -/
def uploadLoop (remote : Remote) (timeString : Int → String)
    (logGroupName logStreamName : String) (quiet : Bool) :
    Nat → List (List InputLogEvent) → Bool → Option String → Run
  | _, [], closed, _ =>
      { calls := [], stdout := [], exit := if closed then Exit.returned else Exit.blocked }
  | n, batch :: rest, closed, sequenceToken =>
      let input : PutLogEventsInput :=
        { LogEvents := batch, LogGroupName := logGroupName,
          LogStreamName := logStreamName, SequenceToken := sequenceToken }
      match remote.PutLogEvents n input with
      | Except.error err =>
          { calls := [Call.PutLogEvents input], stdout := [], exit := Exit.panicked err }
      | Except.ok res =>
          let after := uploadLoop remote timeString logGroupName logStreamName quiet
            (n + 1) rest closed res.NextSequenceToken
          { calls := Call.PutLogEvents input :: after.calls,
            stdout := batch.map (mirror timeString) ++ after.stdout,
            exit := after.exit }

/-- The command line flags. -/
structure Flags where
  logGroupName : String
  logStreamName : String
  quiet : Bool
  deriving DecidableEq, Repr

/-- Everything else a run of `main` depends on: the lines of standard input,
the clock, the firings of the batcher's timer, the result of `uuid.NewUUID`,
the error of `session.NewSession`, the remote service and the rendering of
timestamps. -/
structure Env where
  stdin : List String
  now : Nat → Int
  expiries : Nat → Nat
  uuid : Except String String
  session : Option String
  remote : Remote
  timeString : Int → String

/-- The function `main`. -/
def main (flags : Flags) (env : Env) : Run :=
  if flags.logGroupName = "" then
    { calls := [], stdout := ["log-group-name is required."], exit := Exit.exit 1 }
  else
    match (if flags.logStreamName = "" then
        env.uuid.map (fun id => flags.logGroupName ++ "/" ++ id)
      else Except.ok flags.logStreamName) with
    | Except.error err => { calls := [], stdout := [], exit := Exit.panicked err }
    | Except.ok logStreamName =>
      let batches :=
        batchEvents (interleave env.expiries 0 (ingestor env.now env.stdin)) 1000 8000000
      match env.session with
      | some err => { calls := [], stdout := [], exit := Exit.panicked err }
      | none =>
        match bootstrap env.remote flags.logGroupName logStreamName with
        | (calls, Except.error err) => { calls := calls, stdout := [], exit := Exit.panicked err }
        | (calls, Except.ok sequenceToken) =>
          let up := uploadLoop env.remote env.timeString flags.logGroupName logStreamName
            flags.quiet 0 batches.sent batches.closed sequenceToken
          { calls := calls ++ up.calls, stdout := up.stdout, exit := up.exit }

/-! ## Reference chunking

The greedy chunking of an event list, written from the specification: each
batch is the shortest non-empty prefix of the remaining events whose count
equals `max_items` or whose accounted size is strictly greater than
`max_bytes`, or all remaining events when there is no such prefix. -/

/-- The cut condition of the specification on a candidate batch. -/
def cutCondition (maxItems maxLength : Int) (chunk : List InputLogEvent) : Bool :=
  decide ((chunk.length : Int) = maxItems) || decide (accountedSum chunk > maxLength)

/-- The shortest non-empty prefix of `events` meeting the cut condition;
`List.inits` lists the prefixes from the shortest on and starts with `[]`. -/
def shortestCut (maxItems maxLength : Int) (events : List InputLogEvent) :
    Option (List InputLogEvent) :=
  events.inits.tail.find? (cutCondition maxItems maxLength)

/-- Greedy chunking with a bound on the number of chunks. -/
def greedyFuel (maxItems maxLength : Int) : Nat → List InputLogEvent → List (List InputLogEvent)
  | 0, _ => []
  | fuel + 1, events =>
      if events = [] then []
      else
        match shortestCut maxItems maxLength events with
        | none => [events]
        | some chunk => chunk :: greedyFuel maxItems maxLength fuel (events.drop chunk.length)

/-- Greedy reference chunking: every chunk is non-empty, so there are at most
`events.length` of them. -/
def greedyChunks (maxItems maxLength : Int) (events : List InputLogEvent) :
    List (List InputLogEvent) :=
  greedyFuel maxItems maxLength events.length events

/-! ## Concrete inputs -/

/-- A mock remote: the group is created, no stream is listed, the stream is
created, and the uploads answer the tokens `t1`, `t2`, `t3`, `t3`, ... -/
def mockRemote : Remote :=
  { CreateLogGroup := CreateLogGroupResponse.ok
    DescribeLogStreams := ([], none)
    CreateLogStream := none
    PutLogEvents := fun n _ =>
      Except.ok { NextSequenceToken := some (match n with | 0 => "t1" | 1 => "t2" | _ => "t3") } }

/-- An environment over `mockRemote`: the given lines on standard input, a
clock stuck at 0, and a timer that fires once in every wait of the batcher. -/
def mockEnv (stdin : List String) (remote : Remote) : Env :=
  { stdin := stdin
    now := fun _ => 0
    expiries := fun _ => 1
    uuid := Except.ok "u"
    session := none
    remote := remote
    timeString := fun _ => "T" }

/-! ## Lemmas on the batcher -/

theorem done_sent (batch : List InputLogEvent) (after : Batches) :
    (done batch after).sent = if batch = [] then after.sent else batch :: after.sent := by
  cases batch <;> simp [done]

theorem done_closed (batch : List InputLogEvent) (after : Batches) :
    (done batch after).closed = after.closed := by
  cases batch <;> simp [done]

theorem done_append_sent (batch : List InputLogEvent) (v : InputLogEvent) (after : Batches) :
    (done (batch ++ [v]) after).sent = (batch ++ [v]) :: after.sent := by
  simp [done_sent]

theorem accountedSum_append (xs ys : List InputLogEvent) :
    accountedSum (xs ++ ys) = accountedSum xs + accountedSum ys := by
  simp [accountedSum]

theorem accounted_pos (v : InputLogEvent) : 0 < accounted v := by
  unfold accounted; omega

theorem accountedSum_nonneg (xs : List InputLogEvent) : 0 ≤ accountedSum xs := by
  induction xs with
  | nil => simp [accountedSum]
  | cons x xs ih =>
    have h := accounted_pos x
    simp only [accountedSum, List.map_cons, List.sum_cons] at ih ⊢
    omega

/-- Every batch sent is non-empty, whatever the state the loop starts from. -/
theorem batchLoop_sent_ne_nil (maxItems maxLength : Int) (values : List Recv) :
    ∀ (batch : List InputLogEvent) (length : Int),
      ∀ b ∈ (batchLoop maxItems maxLength values batch length).sent, b ≠ [] := by
  induction values with
  | nil => intro batch length b hb; simp [batchLoop] at hb
  | cons r rest ih =>
    intro batch length b hb
    cases r with
    | closed =>
      simp only [batchLoop, done_sent] at hb
      split at hb
      · simp at hb
      · simp at hb; subst hb; assumption
    | expire =>
      simp only [batchLoop, done_sent] at hb
      split at hb
      · exact ih _ _ b hb
      · rcases List.mem_cons.1 hb with h | h
        · subst h; assumption
        · exact ih _ _ b h
    | value v =>
      simp only [batchLoop] at hb
      split at hb
      · rw [done_append_sent] at hb
        rcases List.mem_cons.1 hb with h | h
        · subst h; simp
        · exact ih _ _ b h
      · split at hb
        · rw [done_append_sent] at hb
          rcases List.mem_cons.1 hb with h | h
          · subst h; simp
          · exact ih _ _ b h
        · exact ih _ _ b hb

/-- On a trace ended by closure the batches sent, concatenated, are the
in-flight batch followed by the events received, and `batches` is closed. -/
theorem batchLoop_join (maxItems maxLength : Int) (tr : List Recv)
    (hopen : Recv.closed ∉ tr) :
    ∀ (batch : List InputLogEvent) (length : Int),
      (batchLoop maxItems maxLength (tr ++ [Recv.closed]) batch length).sent.flatten
          = batch ++ arrivals tr
        ∧ (batchLoop maxItems maxLength (tr ++ [Recv.closed]) batch length).closed = true := by
  induction tr with
  | nil =>
    intro batch length
    simp only [List.nil_append, batchLoop, done_sent, done_closed, arrivals]
    cases batch <;> simp
  | cons r rest ih =>
    have hrest : Recv.closed ∉ rest := fun h => hopen (List.mem_cons_of_mem _ h)
    intro batch length
    cases r with
    | closed => exact absurd (List.mem_cons_self _ _) hopen
    | expire =>
      simp only [List.cons_append, batchLoop, done_sent, done_closed, arrivals]
      obtain ⟨h1, h2⟩ := ih hrest [] 0
      refine ⟨?_, h2⟩
      split
      · subst_vars; simpa using h1
      · simp [h1]
    | value v =>
      simp only [List.cons_append, batchLoop, arrivals]
      obtain ⟨h1, h2⟩ := ih hrest [] 0
      obtain ⟨h3, h4⟩ := ih hrest (batch ++ [v]) (length + accounted v)
      split
      · rw [done_append_sent, done_closed]; simp [h1, h2]
      · split
        · rw [done_append_sent, done_closed]; simp [h1, h2]
        · simp [h3, h4]

/-- With `maxItems ≥ 1` and fewer than `maxItems` events in flight, no batch
sent has more than `maxItems` events. -/
theorem batchLoop_count (maxItems maxLength : Int) (hpos : 1 ≤ maxItems)
    (values : List Recv) :
    ∀ (batch : List InputLogEvent) (length : Int), (batch.length : Int) < maxItems →
      ∀ b ∈ (batchLoop maxItems maxLength values batch length).sent,
        (b.length : Int) ≤ maxItems := by
  induction values with
  | nil => intro batch length _ b hb; simp [batchLoop] at hb
  | cons r rest ih =>
    intro batch length hlt b hb
    have h0 : (([] : List InputLogEvent).length : Int) < maxItems := by simp; omega
    cases r with
    | closed =>
      simp only [batchLoop, done_sent] at hb
      split at hb
      · simp at hb
      · simp at hb; subst hb; omega
    | expire =>
      simp only [batchLoop, done_sent] at hb
      split at hb
      · exact ih [] 0 h0 b hb
      · rcases List.mem_cons.1 hb with h | h
        · subst h; omega
        · exact ih [] 0 h0 b h
    | value v =>
      simp only [batchLoop] at hb
      split at hb
      · rename_i heq
        rw [done_append_sent] at hb
        rcases List.mem_cons.1 hb with h | h
        · subst h; omega
        · exact ih [] 0 h0 b h
      · rename_i hne
        have hlen : ((batch ++ [v]).length : Int) = (batch.length : Int) + 1 := by simp
        split at hb
        · rw [done_append_sent] at hb
          rcases List.mem_cons.1 hb with h | h
          · subst h; omega
          · exact ih [] 0 h0 b h
        · exact ih (batch ++ [v]) _ (by omega) b hb

/-- With `maxLength ≥ 0`, `length` the accounted size of the batch in flight
and not above `maxLength`, every batch sent has all events but the last within
`maxLength`. -/
theorem batchLoop_bytes (maxItems maxLength : Int) (hnn : 0 ≤ maxLength)
    (values : List Recv) :
    ∀ (batch : List InputLogEvent) (length : Int),
      length = accountedSum batch → length ≤ maxLength →
      ∀ b ∈ (batchLoop maxItems maxLength values batch length).sent,
        accountedSum b.dropLast ≤ maxLength := by
  induction values with
  | nil => intro batch length _ _ b hb; simp [batchLoop] at hb
  | cons r rest ih =>
    intro batch length hsum hle b hb
    have h0 : (0 : Int) = accountedSum [] := by simp [accountedSum]
    have hdl : accountedSum batch.dropLast ≤ maxLength := by
      rcases List.eq_nil_or_concat batch with h | ⟨l, x, h⟩
      · subst h; simpa [accountedSum] using hnn
      · rw [List.concat_eq_append] at h
        subst h
        have hx := accounted_pos x
        have : accountedSum (l ++ [x]) = accountedSum l + accounted x := by
          simp [accountedSum]
        have hd : (l ++ [x]).dropLast = l := by simp
        rw [hd]; omega
    cases r with
    | closed =>
      simp only [batchLoop, done_sent] at hb
      split at hb
      · simp at hb
      · simp at hb; subst hb; exact hdl
    | expire =>
      simp only [batchLoop, done_sent] at hb
      split at hb
      · exact ih [] 0 h0 hnn b hb
      · rcases List.mem_cons.1 hb with h | h
        · subst h; exact hdl
        · exact ih [] 0 h0 hnn b h
    | value v =>
      simp only [batchLoop] at hb
      split at hb
      · rw [done_append_sent] at hb
        rcases List.mem_cons.1 hb with h | h
        · subst h; rw [List.dropLast_concat]; omega
        · exact ih [] 0 h0 hnn b h
      · split at hb
        · rw [done_append_sent] at hb
          rcases List.mem_cons.1 hb with h | h
          · subst h; rw [List.dropLast_concat]; omega
          · exact ih [] 0 h0 hnn b h
        · refine ih (batch ++ [v]) _ ?_ (by omega) b hb
          rw [accountedSum_append, hsum]; simp [accountedSum]


/-! ## Lemmas on the reader, the pipeline and the upload loop -/

theorem utf8ByteSize_pos_iff (s : String) : s.utf8ByteSize > 0 ↔ s ≠ "" := by
  rcases s with ⟨cs⟩
  cases cs with
  | nil => simp [String.utf8ByteSize, String.utf8ByteSize.go]
  | cons c cs =>
    have hc := Char.utf8Size_pos c
    have hne : (⟨c :: cs⟩ : String) ≠ "" := by
      intro h
      have := congrArg String.data h
      simp at this
    simp only [String.utf8ByteSize, String.utf8ByteSize.go, gt_iff_lt, ne_eq, hne,
      not_false_eq_true, iff_true]
    omega

theorem scanLoop_no_close (now : Nat → Int) (lines : List String) :
    ∀ i, ChanAction.close ∉ scanLoop now i lines := by
  induction lines with
  | nil => intro i; simp [scanLoop]
  | cons text rest ih =>
    intro i
    simp only [scanLoop]
    split
    · simp [ih (i + 1)]
    · exact ih (i + 1)

theorem scanLoop_messages (now : Nat → Int) (lines : List String) :
    ∀ i, (sentEvents (scanLoop now i lines)).map InputLogEvent.Message
      = lines.filter (fun text => decide (text ≠ "")) := by
  induction lines with
  | nil => intro i; simp [scanLoop, sentEvents]
  | cons text rest ih =>
    intro i
    simp only [scanLoop]
    by_cases h : text.utf8ByteSize > 0
    · have hne := (utf8ByteSize_pos_iff text).1 h
      simp [h, hne, sentEvents, ih (i + 1)]
    · have hne : text = "" := by
        by_contra hc
        exact h ((utf8ByteSize_pos_iff text).2 hc)
      rw [if_neg h, ih (i + 1)]
      simp [hne]

theorem scanLoop_sends (now : Nat → Int) (lines : List String) :
    ∀ i, scanLoop now i lines = (sentEvents (scanLoop now i lines)).map ChanAction.send := by
  induction lines with
  | nil => intro i; simp [scanLoop, sentEvents]
  | cons text rest ih =>
    intro i
    simp only [scanLoop]
    split
    · simp only [sentEvents, List.map_cons]
      rw [← ih (i + 1)]
    · exact ih (i + 1)

theorem interleave_no_closed (expiries : Nat → Nat) (acts : List ChanAction)
    (hacts : ChanAction.close ∉ acts) :
    ∀ i, Recv.closed ∉ interleave expiries i acts := by
  induction acts with
  | nil => intro i; simp [interleave]
  | cons a rest ih =>
    intro i
    have hrest : ChanAction.close ∉ rest := fun h => hacts (List.mem_cons_of_mem _ h)
    have ha : recvOf a ≠ Recv.closed := by
      cases a with
      | send v => simp [recvOf]
      | close => exact absurd (List.mem_cons_self _ _) hacts
    simp only [interleave, List.mem_append, List.mem_cons, not_or]
    refine ⟨by simp, fun h => ha h.symm, ih hrest (i + 1)⟩

theorem batchLoop_open (maxItems maxLength : Int) (values : List Recv)
    (hopen : Recv.closed ∉ values) :
    ∀ (batch : List InputLogEvent) (length : Int),
      (batchLoop maxItems maxLength values batch length).closed = false := by
  induction values with
  | nil => intro batch length; simp [batchLoop]
  | cons r rest ih =>
    have hrest : Recv.closed ∉ rest := fun h => hopen (List.mem_cons_of_mem _ h)
    intro batch length
    cases r with
    | closed => exact absurd (List.mem_cons_self _ _) hopen
    | expire => simp only [batchLoop, done_closed]; exact ih hrest _ _
    | value v =>
      simp only [batchLoop]
      split
      · rw [done_closed]; exact ih hrest _ _
      · split
        · rw [done_closed]; exact ih hrest _ _
        · exact ih hrest _ _

theorem batchLoop_mem (maxItems maxLength : Int) (values : List Recv) :
    ∀ (batch : List InputLogEvent) (length : Int),
      ∀ b ∈ (batchLoop maxItems maxLength values batch length).sent,
        ∀ e ∈ b, e ∈ batch ∨ e ∈ arrivals values := by
  induction values with
  | nil => intro batch length b hb; simp [batchLoop] at hb
  | cons r rest ih =>
    intro batch length b hb e he
    cases r with
    | closed =>
      simp only [batchLoop, done_sent] at hb
      split at hb
      · simp at hb
      · simp at hb; subst hb; exact Or.inl he
    | expire =>
      simp only [batchLoop, done_sent] at hb
      have hrec : b ∈ (batchLoop maxItems maxLength rest [] 0).sent → e ∈ arrivals rest := by
        intro h
        rcases ih [] 0 b h e he with h1 | h1
        · simp at h1
        · exact h1
      split at hb
      · exact Or.inr (by simpa [arrivals] using hrec hb)
      · rcases List.mem_cons.1 hb with h | h
        · subst h; exact Or.inl he
        · exact Or.inr (by simpa [arrivals] using hrec h)
    | value v =>
      have hrec : b ∈ (batchLoop maxItems maxLength rest [] 0).sent → e ∈ arrivals rest := by
        intro h
        rcases ih [] 0 b h e he with h1 | h1
        · simp at h1
        · exact h1
      have hcut : b ∈ (done (batch ++ [v]) (batchLoop maxItems maxLength rest [] 0)).sent →
          e ∈ batch ∨ e ∈ arrivals (Recv.value v :: rest) := by
        intro h
        rw [done_append_sent] at h
        rcases List.mem_cons.1 h with h | h
        · subst h
          rcases List.mem_append.1 he with h2 | h2
          · exact Or.inl h2
          · right; simp at h2; simp [arrivals, h2]
        · right; simp [arrivals, hrec h]
      simp only [batchLoop] at hb
      split at hb
      · exact hcut hb
      · split at hb
        · exact hcut hb
        · rcases ih _ _ b hb e he with h1 | h1
          · rcases List.mem_append.1 h1 with h2 | h2
            · exact Or.inl h2
            · right; simp at h2; simp [arrivals, h2]
          · right; simp [arrivals, h1]

theorem uploadLoop_open_exit (remote : Remote) (timeString : Int → String)
    (logGroupName logStreamName : String) (quiet : Bool) (batches : List (List InputLogEvent)) :
    ∀ (n : Nat) (sequenceToken : Option String),
      (uploadLoop remote timeString logGroupName logStreamName quiet n batches false
        sequenceToken).exit ≠ Exit.returned := by
  induction batches with
  | nil => intro n tok; simp [uploadLoop]
  | cons batch rest ih =>
    intro n tok
    simp only [uploadLoop]
    split
    · simp
    · exact ih _ _

/-! ## Lemmas on bootstrap and the upload loop -/

theorem arrivals_replicate_expire (k : Nat) (rest : List Recv) :
    arrivals (List.replicate k Recv.expire ++ rest) = arrivals rest := by
  induction k with
  | zero => simp
  | succ k ih => simpa [List.replicate_succ, arrivals] using ih

theorem arrivals_interleave (expiries : Nat → Nat) (acts : List ChanAction) :
    ∀ i, arrivals (interleave expiries i acts) = sentEvents acts := by
  induction acts with
  | nil =>
    intro i
    have h := arrivals_replicate_expire (expiries i) []
    simpa [interleave, sentEvents, arrivals] using h
  | cons a rest ih =>
    intro i
    simp only [interleave, arrivals_replicate_expire]
    cases a <;> simp [recvOf, arrivals, sentEvents, ih (i + 1)]

theorem uploadLoop_quiet (remote : Remote) (timeString : Int → String)
    (logGroupName logStreamName : String) (q1 q2 : Bool) (closed : Bool)
    (batches : List (List InputLogEvent)) :
    ∀ (n : Nat) (sequenceToken : Option String),
      uploadLoop remote timeString logGroupName logStreamName q1 n batches closed sequenceToken
        = uploadLoop remote timeString logGroupName logStreamName q2 n batches closed
            sequenceToken := by
  induction batches with
  | nil => intro n tok; simp [uploadLoop]
  | cons batch rest ih =>
    intro n tok
    simp only [uploadLoop]
    split
    · rfl
    · rw [ih]

theorem putRequests_append (xs ys : List Call) :
    putRequests (xs ++ ys) = putRequests xs ++ putRequests ys := by
  induction xs with
  | nil => simp [putRequests]
  | cons c xs ih => cases c <;> simp [putRequests, ih]

theorem bootstrap_putRequests (remote : Remote) (logGroupName logStreamName : String) :
    putRequests (bootstrap remote logGroupName logStreamName).1 = [] := by
  by_cases h : findToken logStreamName remote.DescribeLogStreams.1 none = none
  · cases hc : remote.CreateLogStream <;> simp [bootstrap, h, hc, putRequests]
  · simp [bootstrap, h, putRequests]

/-- With every upload answered, the requests of the upload loop carry the
batches in order, the first carries the starting cursor and each later one the
token answered to the one before. -/
theorem uploadLoop_requests (remote : Remote) (timeString : Int → String)
    (logGroupName logStreamName : String) (quiet closed : Bool)
    (hok : ∀ n input, ∃ res, remote.PutLogEvents n input = Except.ok res)
    (batches : List (List InputLogEvent)) :
    ∀ (n : Nat) (sequenceToken : Option String),
      (putRequests (uploadLoop remote timeString logGroupName logStreamName quiet n batches
          closed sequenceToken).calls).map PutLogEventsInput.LogEvents = batches
        ∧ (∀ req, (putRequests (uploadLoop remote timeString logGroupName logStreamName quiet n
            batches closed sequenceToken).calls).head? = some req →
            req.SequenceToken = sequenceToken)
        ∧ (∀ (i : Nat) (a b : PutLogEventsInput),
            (putRequests (uploadLoop remote timeString logGroupName logStreamName quiet n
              batches closed sequenceToken).calls)[i]? = some a →
            (putRequests (uploadLoop remote timeString logGroupName logStreamName quiet n
              batches closed sequenceToken).calls)[i + 1]? = some b →
            ∃ res, remote.PutLogEvents (n + i) a = Except.ok res
              ∧ b.SequenceToken = res.NextSequenceToken) := by
  induction batches with
  | nil => intro n tok; simp [uploadLoop, putRequests]
  | cons batch rest ih =>
    intro n tok
    obtain ⟨res, hres⟩ := hok n
      { LogEvents := batch, LogGroupName := logGroupName,
        LogStreamName := logStreamName, SequenceToken := tok }
    obtain ⟨h1, h2, h3⟩ := ih (n + 1) res.NextSequenceToken
    simp only [uploadLoop, hres, putRequests]
    refine ⟨by simp [h1], by intro req h; simp at h; subst h; rfl, ?_⟩
    intro i a b ha hb
    cases i with
    | zero =>
      simp at ha hb
      subst ha
      exact ⟨res, hres, h2 b (by simpa [List.head?_eq_getElem?] using hb)⟩
    | succ i =>
      simp only [List.getElem?_cons_succ] at ha hb
      obtain ⟨r, hr1, hr2⟩ := h3 i a b ha hb
      exact ⟨r, by rw [← hr1]; congr 1; omega, hr2⟩

theorem uploadLoop_calls (remote : Remote) (timeString : Int → String)
    (logGroupName logStreamName : String) (quiet closed : Bool)
    (batches : List (List InputLogEvent)) :
    ∀ (n : Nat) (sequenceToken : Option String),
      (uploadLoop remote timeString logGroupName logStreamName quiet n batches closed
          sequenceToken).calls
        = (putRequests (uploadLoop remote timeString logGroupName logStreamName quiet n batches
            closed sequenceToken).calls).map Call.PutLogEvents := by
  induction batches with
  | nil => intro n tok; simp [uploadLoop, putRequests]
  | cons batch rest ih =>
    intro n tok
    simp only [uploadLoop]
    split
    · simp [putRequests]
    · simp only [putRequests, List.map_cons]
      rw [← ih]

/-- With every upload answered, the lines printed are the mirrored lines of
the events of the batches, in order, whatever the value of `quiet`. -/
theorem uploadLoop_stdout (remote : Remote) (timeString : Int → String)
    (logGroupName logStreamName : String) (quiet closed : Bool)
    (hok : ∀ n input, ∃ res, remote.PutLogEvents n input = Except.ok res)
    (batches : List (List InputLogEvent)) :
    ∀ (n : Nat) (sequenceToken : Option String),
      (uploadLoop remote timeString logGroupName logStreamName quiet n batches closed
          sequenceToken).stdout = batches.flatten.map (mirror timeString) := by
  induction batches with
  | nil => intro n tok; simp [uploadLoop]
  | cons batch rest ih =>
    intro n tok
    obtain ⟨res, hres⟩ := hok n
      { LogEvents := batch, LogGroupName := logGroupName,
        LogStreamName := logStreamName, SequenceToken := tok }
    simp only [uploadLoop, hres, ih, List.flatten_cons, List.map_append]

/-! ## Lemmas on the reference chunking -/

theorem inits_tail_snoc (batch : List InputLogEvent) (v : InputLogEvent) (rest : List InputLogEvent) :
    (batch ++ v :: rest).inits.tail
      = batch.inits.tail ++ (batch ++ [v]) :: (rest.inits.tail.map fun l => batch ++ v :: l) := by
  have hne : batch.inits ≠ [] := by cases batch <;> simp
  rw [List.inits_append, List.tail_append_of_ne_nil hne]
  congr 1
  cases rest with
  | nil => simp
  | cons a l => simp [List.inits_cons]

theorem shortestCut_none (maxItems maxLength : Int) (batch : List InputLogEvent)
    (hinv : ∀ p ∈ batch.inits.tail, cutCondition maxItems maxLength p = false) :
    shortestCut maxItems maxLength batch = none := by
  unfold shortestCut
  rw [List.find?_eq_none]
  intro p hp
  simp [hinv p hp]

theorem shortestCut_snoc (maxItems maxLength : Int) (batch : List InputLogEvent)
    (v : InputLogEvent) (rest : List InputLogEvent)
    (hinv : ∀ p ∈ batch.inits.tail, cutCondition maxItems maxLength p = false)
    (hcut : cutCondition maxItems maxLength (batch ++ [v]) = true) :
    shortestCut maxItems maxLength (batch ++ v :: rest) = some (batch ++ [v]) := by
  have hnone : batch.inits.tail.find? (cutCondition maxItems maxLength) = none := by
    rw [List.find?_eq_none]
    intro p hp
    simp [hinv p hp]
  unfold shortestCut
  rw [inits_tail_snoc, List.find?_append, hnone, List.find?_cons, hcut]
  rfl

theorem inv_snoc (maxItems maxLength : Int) (batch : List InputLogEvent) (v : InputLogEvent)
    (hinv : ∀ p ∈ batch.inits.tail, cutCondition maxItems maxLength p = false)
    (hcut : cutCondition maxItems maxLength (batch ++ [v]) = false) :
    ∀ p ∈ (batch ++ [v]).inits.tail, cutCondition maxItems maxLength p = false := by
  intro p hp
  rw [inits_tail_snoc] at hp
  simp at hp
  rcases hp with h | h
  · exact hinv p h
  · subst h; exact hcut

theorem cutCondition_snoc (maxItems maxLength : Int) (batch : List InputLogEvent)
    (v : InputLogEvent) (length : Int) (hlen : length = accountedSum batch) :
    cutCondition maxItems maxLength (batch ++ [v]) = true
      ↔ (((batch ++ [v]).length : Int) = maxItems ∨ length + accounted v > maxLength) := by
  have h : accountedSum (batch ++ [v]) = length + accounted v := by
    rw [accountedSum_append, hlen]; simp [accountedSum]
  simp [cutCondition, h]

/-- On arrivals followed by closure, with no timer expiry, the batcher sends
the greedy chunks of the batch in flight followed by the arrivals, provided no
non-empty part of the batch in flight meets the cut condition. -/
theorem batchLoop_eq_greedyFuel (maxItems maxLength : Int) (events : List InputLogEvent) :
    ∀ (batch : List InputLogEvent) (length : Int) (fuel : Nat),
      length = accountedSum batch →
      (∀ p ∈ batch.inits.tail, cutCondition maxItems maxLength p = false) →
      (batch ++ events).length ≤ fuel →
      (batchLoop maxItems maxLength (events.map Recv.value ++ [Recv.closed]) batch length).sent
        = greedyFuel maxItems maxLength fuel (batch ++ events) := by
  induction events with
  | nil =>
    intro batch length fuel hlen hinv hfuel
    simp only [List.map_nil, List.nil_append, batchLoop, done_sent, List.append_nil]
    cases fuel with
    | zero =>
      have : batch = [] := by
        simp at hfuel; exact hfuel
      simp [this, greedyFuel]
    | succ f =>
      by_cases hb : batch = []
      · simp [hb, greedyFuel]
      · simp [hb, greedyFuel, shortestCut_none maxItems maxLength batch hinv]
  | cons v rest ih =>
    intro batch length fuel hlen hinv hfuel
    cases fuel with
    | zero => simp at hfuel
    | succ f =>
      have hne : batch ++ v :: rest ≠ [] := by simp
      have hrest : ([] ++ rest).length ≤ f := by
        simp at hfuel ⊢; omega
      have hcutcase : cutCondition maxItems maxLength (batch ++ [v]) = true →
          (done (batch ++ [v])
              (batchLoop maxItems maxLength (rest.map Recv.value ++ [Recv.closed]) [] 0)).sent
            = greedyFuel maxItems maxLength (f + 1) (batch ++ v :: rest) := by
        intro hcut
        rw [done_append_sent, ih [] 0 f (by simp [accountedSum]) (by simp) hrest]
        simp only [greedyFuel, if_neg hne,
          shortestCut_snoc maxItems maxLength batch v rest hinv hcut]
        have hdrop : List.drop (batch ++ [v]).length (batch ++ v :: rest) = rest := by
          have : batch ++ v :: rest = (batch ++ [v]) ++ rest := by simp
          rw [this, List.drop_left]
        rw [hdrop]; rfl
      have hiff := cutCondition_snoc maxItems maxLength batch v length hlen
      simp only [List.map_cons, List.cons_append, batchLoop]
      split
      · rename_i h1
        exact hcutcase (hiff.2 (Or.inl h1))
      · rename_i h1
        split
        · rename_i h2
          exact hcutcase (hiff.2 (Or.inr h2))
        · rename_i h2
          have hno : cutCondition maxItems maxLength (batch ++ [v]) = false := by
            cases hc : cutCondition maxItems maxLength (batch ++ [v]) with
            | false => rfl
            | true => rcases hiff.1 hc with h | h
                      · exact absurd h h1
                      · exact absurd h h2
          have := ih (batch ++ [v]) (length + accounted v) (f + 1)
            (by rw [accountedSum_append, hlen]; simp [accountedSum])
            (inv_snoc maxItems maxLength batch v hinv hno)
            (by simpa using hfuel)
          simpa using this

/-- On arrivals followed by closure, with no timer expiry, every batch sent
but the last meets the cut condition. -/
theorem batchLoop_cut_reason (maxItems maxLength : Int) (events : List InputLogEvent) :
    ∀ (batch : List InputLogEvent) (length : Int), length = accountedSum batch →
      ∀ b ∈ (batchLoop maxItems maxLength (events.map Recv.value ++ [Recv.closed])
          batch length).sent.dropLast,
        (b.length : Int) = maxItems ∨ accountedSum b > maxLength := by
  induction events with
  | nil =>
    intro batch length hlen b hb
    simp only [List.map_nil, List.nil_append, batchLoop, done_sent] at hb
    split at hb <;> simp at hb
  | cons v rest ih =>
    intro batch length hlen b hb
    have hsum : accountedSum (batch ++ [v]) = length + accounted v := by
      rw [accountedSum_append, hlen]; simp [accountedSum]
    have hcutcase : ((batch ++ [v]).length : Int) = maxItems ∨ length + accounted v > maxLength →
        b ∈ (done (batch ++ [v])
          (batchLoop maxItems maxLength (rest.map Recv.value ++ [Recv.closed]) [] 0)).sent.dropLast →
        (b.length : Int) = maxItems ∨ accountedSum b > maxLength := by
      intro hc hmem
      rw [done_append_sent] at hmem
      cases hs : (batchLoop maxItems maxLength (rest.map Recv.value ++ [Recv.closed]) [] 0).sent with
      | nil => rw [hs] at hmem; simp at hmem
      | cons x xs =>
        rw [hs, List.dropLast_cons₂] at hmem
        rcases List.mem_cons.1 hmem with h | h
        · subst h; rw [hsum]; exact hc
        · exact ih [] 0 (by simp [accountedSum]) b (by rw [hs]; exact h)
    simp only [List.map_cons, List.cons_append, batchLoop] at hb
    split at hb
    · rename_i h1; exact hcutcase (Or.inl h1) hb
    · split at hb
      · rename_i h2; exact hcutcase (Or.inr h2) hb
      · exact ih (batch ++ [v]) _ hsum.symm b hb

/-! ## Claims on the batcher -/

/-- C1: on every trace of arrivals and timer expiries ended by closure of the
input channel, for every `maxItems` and `maxLength`, the batches sent are
non-empty and their concatenation in emission order is the sequence of events
received in arrival order, and `batches` is closed afterwards; a timer expiry
on an empty batch sends nothing. -/
theorem batchEvents_partitions_arrivals (maxItems maxLength : Int) (tr : List Recv)
    (hopen : Recv.closed ∉ tr) :
    (∀ b ∈ (batchEvents (tr ++ [Recv.closed]) maxItems maxLength).sent, b ≠ [])
      ∧ (batchEvents (tr ++ [Recv.closed]) maxItems maxLength).sent.flatten = arrivals tr
      ∧ (batchEvents (tr ++ [Recv.closed]) maxItems maxLength).closed = true
      ∧ (∀ (rest : List Recv) (length : Int),
          batchLoop maxItems maxLength (Recv.expire :: rest) [] length
            = batchLoop maxItems maxLength rest [] 0) := by
  refine ⟨batchLoop_sent_ne_nil maxItems maxLength _ [] 0, ?_, ?_, ?_⟩
  · simpa [batchEvents] using (batchLoop_join maxItems maxLength tr hopen [] 0).1
  · exact (batchLoop_join maxItems maxLength tr hopen [] 0).2
  · intro rest length
    simp [batchLoop, done]

/-- Witness of C1: the trace `x`, expiry, `y`, closure with the caps of `main`. -/
theorem batchEvents_partitions_arrivals_witness :
    Recv.closed ∉ [Recv.value ⟨"x", 1⟩, Recv.expire, Recv.value ⟨"y", 2⟩]
      ∧ (batchEvents ([Recv.value ⟨"x", 1⟩, Recv.expire, Recv.value ⟨"y", 2⟩] ++ [Recv.closed])
          1000 8000000).sent.flatten
        = arrivals [Recv.value ⟨"x", 1⟩, Recv.expire, Recv.value ⟨"y", 2⟩] :=
  ⟨by decide,
   (batchEvents_partitions_arrivals 1000 8000000
      [Recv.value ⟨"x", 1⟩, Recv.expire, Recv.value ⟨"y", 2⟩] (by decide)).2.1⟩

/-- C2: for every sequence of select outcomes and every `maxItems ≥ 1`, every
batch sent has at most `maxItems` events; with `maxItems = 1` every batch sent
has exactly one event. -/
theorem batchEvents_count_le (values : List Recv) (maxItems maxLength : Int)
    (hpos : 1 ≤ maxItems) :
    (∀ b ∈ (batchEvents values maxItems maxLength).sent, (b.length : Int) ≤ maxItems)
      ∧ (∀ b ∈ (batchEvents values 1 maxLength).sent, b.length = 1) := by
  constructor
  · exact batchLoop_count maxItems maxLength hpos values [] 0 (by simp; omega)
  · intro b hb
    have h1 := batchLoop_count 1 maxLength (le_refl 1) values [] 0 (by simp) b hb
    have h2 := batchLoop_sent_ne_nil 1 maxLength values [] 0 b hb
    have h3 : 0 < b.length := List.length_pos.2 h2
    omega

/-- Witness of C2: three arrivals and closure with `maxItems = 2`. -/
theorem batchEvents_count_le_witness :
    (1 : Int) ≤ 2
      ∧ (∀ b ∈ (batchEvents
            [Recv.value ⟨"a", 0⟩, Recv.value ⟨"b", 0⟩, Recv.value ⟨"c", 0⟩, Recv.closed]
            2 8000000).sent, (b.length : Int) ≤ 2) :=
  ⟨by decide,
   (batchEvents_count_le
      [Recv.value ⟨"a", 0⟩, Recv.value ⟨"b", 0⟩, Recv.value ⟨"c", 0⟩, Recv.closed]
      2 8000000 (by decide)).1⟩

/-- C3: for every sequence of select outcomes and every `maxLength ≥ 0`, in
every batch sent the accounted size (byte length of the message plus 26, summed)
of all events but the last is at most `maxLength`, so the total is at most
`maxLength` plus the accounted size of the last event; and an event that takes
`length` over `maxLength` is sent in the current batch, which is cut there. -/
theorem batchEvents_bytes_bound (values : List Recv) (maxItems maxLength : Int)
    (hnn : 0 ≤ maxLength) :
    (∀ b ∈ (batchEvents values maxItems maxLength).sent,
        accountedSum b.dropLast ≤ maxLength)
      ∧ (∀ b ∈ (batchEvents values maxItems maxLength).sent, ∀ last,
          b.getLast? = some last → accountedSum b ≤ maxLength + accounted last)
      ∧ (∀ (v : InputLogEvent) (rest : List Recv) (batch : List InputLogEvent) (length : Int),
          length + accounted v > maxLength →
          (batchLoop maxItems maxLength (Recv.value v :: rest) batch length).sent
            = (batch ++ [v]) :: (batchLoop maxItems maxLength rest [] 0).sent) := by
  have hdrop := batchLoop_bytes maxItems maxLength hnn values [] 0
    (by simp [accountedSum]) hnn
  refine ⟨hdrop, ?_, ?_⟩
  · intro b hb last hlast
    have h1 := hdrop b hb
    have h2 : b.dropLast ++ [last] = b := List.dropLast_append_getLast? last hlast
    have h3 : accountedSum b = accountedSum b.dropLast + accounted last := by
      conv_lhs => rw [← h2]
      rw [accountedSum_append]; simp [accountedSum]
    omega
  · intro v rest batch length hgt
    by_cases hc : ((batch ++ [v]).length : Int) = maxItems
    · rw [batchLoop, if_pos hc, done_append_sent]
    · rw [batchLoop, if_neg hc, if_pos hgt, done_append_sent]

/-- Witness of C3: ten messages of 10 bytes with `maxLength = 100`. -/
theorem batchEvents_bytes_bound_witness :
    (0 : Int) ≤ 100
      ∧ (∀ b ∈ (batchEvents
            ((List.replicate 10 (⟨"0123456789", 0⟩ : InputLogEvent)).map Recv.value
              ++ [Recv.closed]) 1000 100).sent,
          accountedSum b.dropLast ≤ 100) :=
  ⟨by decide,
   (batchEvents_bytes_bound
      ((List.replicate 10 (⟨"0123456789", 0⟩ : InputLogEvent)).map Recv.value
        ++ [Recv.closed]) 1000 100 (by decide)).1⟩

/-! ## Claims on the reader, bootstrap and the upload loop -/

/-- C9: for every list of input lines the reader only sends events, and the
events sent are exactly the non-empty lines, in input order and each once,
with the message equal to the line; hence no event with an empty message is in
any batch sent by the batcher, whatever the timer does; the lines `a`, empty,
`b` give the events `a`, `b`. -/
theorem ingestor_sends_nonempty_lines (now : Nat → Int) (lines : List String) :
    ingestor now lines = (sentEvents (ingestor now lines)).map ChanAction.send
      ∧ (sentEvents (ingestor now lines)).map InputLogEvent.Message
          = lines.filter (fun text => decide (text ≠ ""))
      ∧ (∀ (tr : List Recv) (maxItems maxLength : Int),
          arrivals tr = sentEvents (ingestor now lines) →
          ∀ b ∈ (batchEvents tr maxItems maxLength).sent, ∀ e ∈ b, e.Message ≠ "")
      ∧ sentEvents (ingestor now ["a", "", "b"])
          = [{ Message := "a", Timestamp := now 0 }, { Message := "b", Timestamp := now 2 }] := by
  refine ⟨scanLoop_sends now lines 0, scanLoop_messages now lines 0, ?_, ?_⟩
  · intro tr maxItems maxLength htr b hb e he
    have hmem : e ∈ arrivals tr := by
      rcases batchLoop_mem maxItems maxLength tr [] 0 b hb e he with h | h
      · simp at h
      · exact h
    rw [htr] at hmem
    have hmsg : e.Message ∈ (sentEvents (ingestor now lines)).map InputLogEvent.Message :=
      List.mem_map_of_mem _ hmem
    rw [ingestor, scanLoop_messages now lines 0] at hmsg
    simpa using (List.mem_filter.1 hmsg).2
  · have ha : "a".utf8ByteSize > 0 := by decide
    have hb : "b".utf8ByteSize > 0 := by decide
    have he : ¬ "".utf8ByteSize > 0 := by decide
    simp [ingestor, scanLoop, sentEvents, ha, hb, he]

/-- C5 (the code does otherwise): on the input line `a` the reader's channel
actions are the one send, with no close after it; for every input the reader
never closes `events`, so for every behaviour of the timer the batcher never
closes `batches`, and no run of `main` returns. -/
theorem ingestor_never_closes :
    ingestor (fun _ => 0) ["a"] = [ChanAction.send { Message := "a", Timestamp := 0 }]
      ∧ (main { logGroupName := "g", logStreamName := "s", quiet := false }
          (mockEnv ["a"] mockRemote)).exit = Exit.blocked
      ∧ (∀ (now : Nat → Int) (lines : List String), ChanAction.close ∉ ingestor now lines)
      ∧ (∀ (now : Nat → Int) (lines : List String) (expiries : Nat → Nat)
          (maxItems maxLength : Int),
          (batchEvents (interleave expiries 0 (ingestor now lines)) maxItems maxLength).closed
            = false)
      ∧ (∀ (flags : Flags) (env : Env), (main flags env).exit ≠ Exit.returned) := by
  have hclosed : ∀ (now : Nat → Int) (lines : List String) (expiries : Nat → Nat)
      (maxItems maxLength : Int),
      (batchEvents (interleave expiries 0 (ingestor now lines)) maxItems maxLength).closed
        = false := fun now lines expiries maxItems maxLength =>
    batchLoop_open maxItems maxLength _
      (interleave_no_closed expiries _ (scanLoop_no_close now lines 0) 0) [] 0
  refine ⟨by decide, by decide, fun now lines => scanLoop_no_close now lines 0, hclosed, ?_⟩
  intro flags env
  unfold main
  split
  · simp
  · split
    · simp
    · split
      · simp
      · split
        · simp
        · simp only [hclosed]
          exact uploadLoop_open_exit _ _ _ _ _ _ _ _

/-- C6 (the code does otherwise): when `DescribeLogStreams` lists the stream
`s` itself, without an upload sequence token, bootstrap for `s` still issues
`CreateLogStream`, and panics when the remote refuses it; in general
`CreateLogStream` is issued exactly when the search leaves the cursor absent,
and when it leaves a token the token is the cursor and nothing is created. -/
theorem bootstrap_creates_listed_stream_without_token :
    (bootstrap
        { mockRemote with
          DescribeLogStreams := ([{ LogStreamName := "s", UploadSequenceToken := none }], none),
          CreateLogStream := some "ResourceAlreadyExistsException" } "g" "s")
      = ([Call.CreateLogGroup "g", Call.DescribeLogStreams "g" "s", Call.CreateLogStream "g" "s"],
          Except.error "ResourceAlreadyExistsException")
      ∧ (∀ (remote : Remote) (g s : String),
          Call.CreateLogStream g s ∈ (bootstrap remote g s).1
            ↔ findToken s remote.DescribeLogStreams.1 none = none)
      ∧ (∀ (remote : Remote) (g s t : String),
          findToken s remote.DescribeLogStreams.1 none = some t →
          bootstrap remote g s
            = ([Call.CreateLogGroup g, Call.DescribeLogStreams g s], Except.ok (some t))) := by
  refine ⟨rfl, ?_, ?_⟩
  · intro remote g s
    by_cases h : findToken s remote.DescribeLogStreams.1 none = none
    · cases hc : remote.CreateLogStream <;> simp [bootstrap, h, hc]
    · simp [bootstrap, h]
  · intro remote g s t h
    simp [bootstrap, h]

/-- C7 (counterexample): with `CreateLogGroup` answering a failure other than
"already exists", the run goes on to `DescribeLogStreams`, `CreateLogStream`
and `PutLogEvents`. -/
theorem createLogGroup_failure_not_fatal :
    (main { logGroupName := "g", logStreamName := "s", quiet := false }
        (mockEnv ["a"] { mockRemote with
          CreateLogGroup := CreateLogGroupResponse.failure "AccessDeniedException" })).calls
      = [Call.CreateLogGroup "g", Call.DescribeLogStreams "g" "s", Call.CreateLogStream "g" "s",
          Call.PutLogEvents ⟨[{ Message := "a", Timestamp := 0 }], "g", "s", none⟩] := by
  decide

/-- C7 (amended): every `CreateLogGroup` response, success, "already exists"
or any other failure, is discarded, and bootstrap goes on with
`DescribeLogStreams`; a failure of `CreateLogStream` is fatal, the run panics
with it and issues no `PutLogEvents`. -/
theorem bootstrap_discards_createLogGroup_response (remote : Remote)
    (response : CreateLogGroupResponse) (g s : String) :
    bootstrap { remote with CreateLogGroup := response } g s = bootstrap remote g s
      ∧ (∃ rest, (bootstrap remote g s).1
          = Call.CreateLogGroup g :: Call.DescribeLogStreams g s :: rest)
      ∧ (∀ err, Call.CreateLogStream g s ∈ (bootstrap remote g s).1 →
          remote.CreateLogStream = some err →
          (bootstrap remote g s).2 = Except.error err)
      ∧ (∀ (flags : Flags) (env : Env) (err : String),
          flags.logGroupName ≠ "" → flags.logStreamName ≠ "" → env.session = none →
          (bootstrap env.remote flags.logGroupName flags.logStreamName).2 = Except.error err →
          (main flags env).exit = Exit.panicked err
            ∧ putRequests (main flags env).calls = []) := by
  refine ⟨rfl, ?_, ?_, ?_⟩
  · by_cases h : findToken s remote.DescribeLogStreams.1 none = none
    · cases hc : remote.CreateLogStream <;> simp [bootstrap, h, hc]
    · simp [bootstrap, h]
  · intro err hmem hc
    by_cases h : findToken s remote.DescribeLogStreams.1 none = none
    · simp [bootstrap, h, hc]
    · simp [bootstrap, h] at hmem
  · intro flags env err hg hs hsess hboot
    have hput := bootstrap_putRequests env.remote flags.logGroupName flags.logStreamName
    unfold main
    rw [if_neg hg, if_neg hs]
    simp only [hsess]
    rcases hb : bootstrap env.remote flags.logGroupName flags.logStreamName with ⟨calls, r⟩
    rw [hb] at hboot hput
    simp only at hboot hput
    subst hboot
    exact ⟨rfl, hput⟩

/-- C8 (the code does otherwise): with `quiet` set a run over one uploaded
event still prints its mirrored line; for every input a run with `quiet` set
is the run with `quiet` unset, remote calls and printed lines alike; with every
upload answered the lines printed are one per uploaded event, in batch order,
whatever the value of `quiet`. -/
theorem quiet_is_not_read :
    (main { logGroupName := "g", logStreamName := "s", quiet := true }
        (mockEnv ["a"] mockRemote)).stdout = ["T a"]
      ∧ (∀ (g s : String) (env : Env),
          main { logGroupName := g, logStreamName := s, quiet := true } env
            = main { logGroupName := g, logStreamName := s, quiet := false } env)
      ∧ (∀ (remote : Remote) (timeString : Int → String) (g s : String) (quiet closed : Bool)
          (batches : List (List InputLogEvent)) (cursor : Option String),
          (∀ n input, ∃ res, remote.PutLogEvents n input = Except.ok res) →
          (uploadLoop remote timeString g s quiet 0 batches closed cursor).stdout
            = batches.flatten.map (mirror timeString)) := by
  refine ⟨by decide, ?_, ?_⟩
  · intro g s env
    simp only [main]
    simp only [uploadLoop_quiet _ _ _ _ true false]
  · intro remote timeString g s quiet closed batches cursor hok
    exact uploadLoop_stdout remote timeString g s quiet closed hok batches 0 cursor

/-- C4: over a remote that answers every upload, the upload loop issues only
`PutLogEvents` calls, one per batch and in the order of the batches; the first
request carries the cursor left by bootstrap, which is absent when bootstrap
created the stream; request `i + 1` carries the token answered to request `i`;
and `main` issues exactly these requests after bootstrap. With the answers
`t1`, `t2`, `t3` and a fresh stream the three requests carry absent, `t1`,
`t2`. -/
theorem uploadLoop_threads_tokens (remote : Remote) (timeString : Int → String)
    (g s : String) (quiet closed : Bool) (batches : List (List InputLogEvent))
    (cursor : Option String)
    (hok : ∀ n input, ∃ res, remote.PutLogEvents n input = Except.ok res) :
    (uploadLoop remote timeString g s quiet 0 batches closed cursor).calls
        = (putRequests (uploadLoop remote timeString g s quiet 0 batches closed cursor).calls).map
            Call.PutLogEvents
      ∧ (putRequests (uploadLoop remote timeString g s quiet 0 batches closed cursor).calls).map
            PutLogEventsInput.LogEvents = batches
      ∧ (∀ req,
          (putRequests (uploadLoop remote timeString g s quiet 0 batches closed cursor).calls).head?
            = some req → req.SequenceToken = cursor)
      ∧ (∀ (i : Nat) (a b : PutLogEventsInput),
          (putRequests (uploadLoop remote timeString g s quiet 0 batches closed cursor).calls)[i]?
            = some a →
          (putRequests
            (uploadLoop remote timeString g s quiet 0 batches closed cursor).calls)[i + 1]?
            = some b →
          ∃ res, remote.PutLogEvents i a = Except.ok res
            ∧ b.SequenceToken = res.NextSequenceToken)
      ∧ (∀ c, Call.CreateLogStream g s ∈ (bootstrap remote g s).1 →
          (bootstrap remote g s).2 = Except.ok c → c = none)
      ∧ (∀ (flags : Flags) (env : Env) (c : Option String),
          flags.logGroupName ≠ "" → flags.logStreamName ≠ "" → env.session = none →
          (bootstrap env.remote flags.logGroupName flags.logStreamName).2 = Except.ok c →
          putRequests (main flags env).calls
            = putRequests (uploadLoop env.remote env.timeString flags.logGroupName
                flags.logStreamName flags.quiet 0
                (batchEvents (interleave env.expiries 0 (ingestor env.now env.stdin))
                  1000 8000000).sent
                (batchEvents (interleave env.expiries 0 (ingestor env.now env.stdin))
                  1000 8000000).closed c).calls)
      ∧ (putRequests (uploadLoop mockRemote timeString g s quiet 0
            [[{ Message := "a", Timestamp := 0 }], [{ Message := "b", Timestamp := 0 }],
              [{ Message := "c", Timestamp := 0 }]] closed none).calls).map
          PutLogEventsInput.SequenceToken = [none, some "t1", some "t2"] := by
  obtain ⟨h1, h2, h3⟩ := uploadLoop_requests remote timeString g s quiet closed hok batches 0 cursor
  refine ⟨uploadLoop_calls _ _ _ _ _ _ _ _ _, h1, h2, ?_, ?_, ?_, ?_⟩
  · intro i a b ha hb
    simpa using h3 i a b ha hb
  · intro c hmem hc
    by_cases h : findToken s remote.DescribeLogStreams.1 none = none
    · cases hcs : remote.CreateLogStream with
      | none => simp [bootstrap, h, hcs] at hc; exact hc.symm
      | some err => simp [bootstrap, h, hcs] at hc
    · simp [bootstrap, h] at hmem
  · intro flags env c hg hs hsess hboot
    have hput := bootstrap_putRequests env.remote flags.logGroupName flags.logStreamName
    unfold main
    rw [if_neg hg, if_neg hs]
    simp only [hsess]
    rcases hb : bootstrap env.remote flags.logGroupName flags.logStreamName with ⟨calls, r⟩
    rw [hb] at hboot hput
    simp only at hboot hput
    subst hboot
    simp only [putRequests_append, hput, List.nil_append]
  · simp [uploadLoop, mockRemote, putRequests]

/-- Witness of C4: three batches uploaded to the mock remote from an absent
cursor. -/
theorem uploadLoop_threads_tokens_witness :
    (∀ n input, ∃ res, mockRemote.PutLogEvents n input = Except.ok res)
      ∧ (putRequests (uploadLoop mockRemote (fun _ => "T") "g" "s" false 0
            [[{ Message := "a", Timestamp := 0 }], [{ Message := "b", Timestamp := 0 }],
              [{ Message := "c", Timestamp := 0 }]] true none).calls).map
          PutLogEventsInput.LogEvents
        = [[{ Message := "a", Timestamp := 0 }], [{ Message := "b", Timestamp := 0 }],
            [{ Message := "c", Timestamp := 0 }]] :=
  ⟨fun _ _ => ⟨_, rfl⟩,
   (uploadLoop_threads_tokens mockRemote (fun _ => "T") "g" "s" false true
      [[{ Message := "a", Timestamp := 0 }], [{ Message := "b", Timestamp := 0 }],
        [{ Message := "c", Timestamp := 0 }]] none (fun _ _ => ⟨_, rfl⟩)).2.1⟩

/-! ## Claim on the reference chunking -/

/-- C10: on every trace of arrivals ended by closure with no timer expiry, the
batches sent by `batchEvents` are the greedy reference chunks of the event
list (each the shortest non-empty prefix of the remaining events whose count
equals `maxItems` or whose accounted size is strictly above `maxLength`, or
all the remaining events); every batch but the last has count `maxItems` or
accounted size above `maxLength`; ten 10-byte messages with `maxLength = 100`
give batches of 3, 3, 3, 1 events, three events with `maxItems = 3` give one
batch, and one event above `maxLength` gives a one-event batch. -/
theorem batchEvents_eq_greedyChunks (maxItems maxLength : Int) (events : List InputLogEvent) :
    (batchEvents (events.map Recv.value ++ [Recv.closed]) maxItems maxLength).sent
        = greedyChunks maxItems maxLength events
      ∧ (∀ b ∈ (batchEvents (events.map Recv.value ++ [Recv.closed])
            maxItems maxLength).sent.dropLast,
          (b.length : Int) = maxItems ∨ accountedSum b > maxLength)
      ∧ ((batchEvents
            ((List.replicate 10 (⟨"0123456789", 0⟩ : InputLogEvent)).map Recv.value
              ++ [Recv.closed]) 1000 100).sent).map List.length = [3, 3, 3, 1]
      ∧ (batchEvents
            [Recv.value ⟨"a", 0⟩, Recv.value ⟨"b", 0⟩, Recv.value ⟨"c", 0⟩, Recv.closed]
            3 1000000000).sent = [[⟨"a", 0⟩, ⟨"b", 0⟩, ⟨"c", 0⟩]]
      ∧ (∀ v : InputLogEvent, accounted v > maxLength →
          (batchEvents [Recv.value v, Recv.closed] maxItems maxLength).sent = [[v]]) := by
  refine ⟨?_, batchLoop_cut_reason maxItems maxLength events [] 0 (by simp [accountedSum]),
    by decide, by decide, ?_⟩
  · have h := batchLoop_eq_greedyFuel maxItems maxLength events [] 0 events.length
      (by simp [accountedSum]) (by simp) (by simp)
    simpa [batchEvents, greedyChunks] using h
  · intro v hv
    simp only [batchEvents, batchLoop, List.nil_append, zero_add]
    split
    · simp [done]
    · simp [hv, done]

end AwsTee
